import Mathlib

/-!
Shallow embedding of the `hms-video-react` component library
(`src/components/ParticipantList/ParticipantList.tsx`,
`src/components/VideoTile/index.tsx`) and proofs about it.

State held in React hooks is modelled by explicit state records; event
handlers become pure functions from state to state together with the lists
of SDK calls and toast messages they emit; the React `useEffect`
dependency-array semantics (run after the first render, and after any
render whose dependencies differ from the previous render's) is modelled
by an explicit schedule over the list of per-render dependency values.
JavaScript `undefined`-able fields become `Option`; JavaScript falsiness
of the empty string is spelled out as `= ""` checks, mirroring the guards
in the source.
-/

namespace HmsVideoReact

/-! ### Class-styling resolver (spec-modelled) -/

/-- A ClassMap: a mapping from slot names to utility-class strings, with
absent slots as `none` (TS objects with optional string fields). -/
def ClassMap : Type := String → Option String

/-- Modelled from the spec: the class-styling resolver
`hmsUiClassParserGenerator` lives in `src/utils/classes`, which is not
among the provided sources (only its call sites in
`ParticipantList.tsx` and `Controls.tsx` are). Per the spec it must
"produce a function slot → className string such that for each slot the
result is the caller value if present, else the custom value if present,
else the default value, else empty string", never failing. The optional
utility-CSS compiler pass is the identity here (no compiler handle). -/
def hmsUiClassParserGenerator (dflt custom caller : ClassMap) :
    String → String :=
  fun slot =>
    match caller slot with
    | some v => v
    | none =>
      match custom slot with
      | some v => v
      | none =>
        match dflt slot with
        | some v => v
        | none => ""

/-! ### Data model for the participant list -/

/-- A peer record as read from the SDK store: identity, display name and
an optional role name (`roleName?: string`). -/
structure HMSPeer where
  id : String
  name : String
  roleName : Option String
deriving DecidableEq

/-- The permission set of a role; only `changeRole` matters here. -/
structure Permissions where
  changeRole : Bool
deriving DecidableEq

/-- A role record: the local peer's role, whose `permissions` field may be
absent (the source reads `localPeerRole?.permissions?.changeRole`). -/
structure HMSRole where
  name : String
  permissions : Option Permissions
deriving DecidableEq

/-- The dialog-local state of `ParticipantList`: `selectedPeer`
(`useState<HMSPeer | null>(null)`), `selectedRole` (`useState('')`) and
`forceChange` (`useState(false)`). -/
structure DialogState where
  selectedPeer : Option HMSPeer
  selectedRole : String
  forceChange : Bool
deriving DecidableEq

/-- A call into the SDK action interface: `hmsActions.changeRole(peerId,
role, force)` (ParticipantList.tsx line 139). -/
inductive SDKCall where
  | changeRole (peerId : String) (role : String) (force : Bool)
deriving DecidableEq

/-- The observable outcome of running `handleSaveSettings`: the SDK calls
issued, the toast messages emitted, and the dialog state afterwards. -/
structure SaveOutcome where
  calls : List SDKCall
  toasts : List String
  state : DialogState
deriving DecidableEq

/-- `localPeerRole?.permissions?.changeRole` coerced to a boolean: `false`
when the role, its permission set, or the flag is absent/false. -/
def changeRolePermitted (localPeerRole : Option HMSRole) : Bool :=
  ((localPeerRole.bind HMSRole.permissions).map Permissions.changeRole).getD false

/-- The `disabled` attribute of the role select input:
`disabled={!localPeerRole?.permissions?.changeRole}`
(ParticipantList.tsx line 193). -/
def selectDisabled (localPeerRole : Option HMSRole) : Bool :=
  !(changeRolePermitted localPeerRole)

/-- `handleSaveSettings` (ParticipantList.tsx lines 128-147). The guard
returns early when no peer is selected, the selected role is the empty
string (JS falsiness of `''`), or the local peer lacks the `changeRole`
permission. Otherwise, when the target role differs from the peer's
current role, the SDK call is issued; `sdk` is the result the awaited
call settles with, and a rejection's message is forwarded to `toast`.
In every non-guarded path `setSelectedPeer(null)` and
`setForceChange(false)` run afterwards. -/
def handleSaveSettings (st : DialogState) (localPeerRole : Option HMSRole)
    (sdk : Except String Unit) : SaveOutcome :=
  match st.selectedPeer with
  | none => ⟨[], [], st⟩
  | some peer =>
    if st.selectedRole = "" then ⟨[], [], st⟩
    else if !(changeRolePermitted localPeerRole) then ⟨[], [], st⟩
    else
      let closed : DialogState :=
        { st with selectedPeer := none, forceChange := false }
      if peer.roleName = some st.selectedRole then ⟨[], [], closed⟩
      else
        match sdk with
        | Except.ok _ =>
          ⟨[SDKCall.changeRole peer.id st.selectedRole st.forceChange], [], closed⟩
        | Except.error m =>
          ⟨[SDKCall.changeRole peer.id st.selectedRole st.forceChange], [m], closed⟩

/-- `handleRoleChangeClose` (ParticipantList.tsx lines 119-122):
`setSelectedPeer(null); setForceChange(false)`. Note `selectedRole` is
left untouched. -/
def handleRoleChangeClose (st : DialogState) : DialogState :=
  { st with selectedPeer := none, forceChange := false }

/-- `onUserSettingsClick` (ParticipantList.tsx lines 274-277):
`setSelectedPeer(participant.peer);
setSelectedRole(participant.peer.roleName || '')`. -/
def openUserSettings (p : HMSPeer) (st : DialogState) : DialogState :=
  { st with selectedPeer := some p, selectedRole := p.roleName.getD "" }

/-- The `disabled` attribute of the "Don't ask for their permission"
checkbox (ParticipantList.tsx lines 210-214):
`!selectedPeer || !selectedRole || selectedRole === selectedPeer.roleName`.
A JS strict comparison of a string against `undefined` is `false`, which
the `Option` equality reproduces. -/
def checkboxDisabled (st : DialogState) : Bool :=
  match st.selectedPeer with
  | none => true
  | some peer =>
    decide (st.selectedRole = "") || decide (peer.roleName = some st.selectedRole)

/-! ### Grouping participants by role -/

/-- `HMSPeerWithMuteStatus`: a peer paired with its audio-enabled flag, as
produced by `selectPeersWithAudioStatus`. -/
structure ParticipantEntry where
  peer : HMSPeer
  isAudioEnabled : Bool
deriving DecidableEq

/-- The grouping key used at ParticipantList.tsx line 103:
`participant => participant.peer.roleName`. When used as a JS object key
by lodash `groupBy`, the value `undefined` is coerced to the property key
`"undefined"`. -/
def roleKey (p : ParticipantEntry) : String :=
  p.peer.roleName.getD "undefined"

/-- One step of lodash `groupBy`: push `p` onto the group keyed `k`,
creating the group at the end when the key is new (JS object insertion
order). -/
def insertGroup (k : String) (p : ParticipantEntry) :
    List (String × List ParticipantEntry) → List (String × List ParticipantEntry)
  | [] => [(k, [p])]
  | (k', g) :: gs =>
    if k' = k then (k', g ++ [p]) :: gs else (k', g) :: insertGroup k p gs

/-- lodash `groupBy` over the participant list, iterating in list order
and accumulating groups (ParticipantList.tsx lines 101-104). -/
def groupByAux (acc : List (String × List ParticipantEntry)) :
    List ParticipantEntry → List (String × List ParticipantEntry)
  | [] => acc
  | p :: ps => groupByAux (insertGroup (roleKey p) p acc) ps

/-- `rolesMap = groupBy(participantList, participant => participant.peer.roleName)`. -/
def rolesMap (l : List ParticipantEntry) : List (String × List ParticipantEntry) :=
  groupByAux [] l

/-- `roles = Object.keys(rolesMap)` (ParticipantList.tsx line 105). -/
def groupKeys (l : List ParticipantEntry) : List String :=
  (rolesMap l).map Prod.fst

/-- Look a group up by key, the empty list when the key is absent. -/
def lookupGroup (k : String) :
    List (String × List ParticipantEntry) → List ParticipantEntry
  | [] => []
  | (k', g) :: gs => if k' = k then g else lookupGroup k gs

/-- The rendered group header text (ParticipantList.tsx line 263):
`role === 'undefined' ? 'Unknown' : role`. -/
def renderLabel (role : String) : String :=
  if role = "undefined" then "Unknown" else role

/-! ### Open/close state machine and the onToggle effect -/

/-- The UI events that can change `listOpen`: the toggle-button click
(`handleClick`, line 99) and a click outside the list
(`ClickAwayListener onClickAway={handleClose}`, lines 100 and 228). -/
inductive PLEvent where
  | toggleClick
  | clickAway
deriving DecidableEq

/-- Initial `listOpen` state: `useState(false)` (line 97). -/
def plInit : Bool := false

/-- The `listOpen` transition: `handleClick` flips the state
(`setListOpen(open => !open)`), `handleClose` forces it to `false`. -/
def plStep (s : Bool) : PLEvent → Bool
  | PLEvent.toggleClick => !s
  | PLEvent.clickAway => false

/-- The `listOpen` value after each event, starting from state `s`. -/
def scanStates (s : Bool) : List PLEvent → List Bool
  | [] => []
  | e :: es => plStep s e :: scanStates (plStep s e) es

/-- `listOpen` after processing all events. -/
def plFinal (s : Bool) (es : List PLEvent) : Bool :=
  es.foldl plStep s

/-- React dependency comparison for renders after the first: the entry is
`true` exactly when this render's dependency value differs from the
previous render's. -/
def depChanges {δ : Type} [DecidableEq δ] (prev : δ) : List δ → List Bool
  | [] => []
  | d :: ds => (!(decide (d = prev))) :: depChanges d ds

/-- The schedule of a React `useEffect` with a dependency array over the
per-render dependency values: it runs after the first render
unconditionally, and after a later render exactly when the dependency
value changed. -/
def effectSchedule {δ : Type} [DecidableEq δ] : List δ → List Bool
  | [] => []
  | d :: ds => true :: depChanges d ds

/-- Keep the values whose schedule flag is `true`. -/
def selectFlagged : List Bool → List Bool → List Bool
  | [], _ => []
  | _, [] => []
  | f :: fs, v :: vs =>
    if f then v :: selectFlagged fs vs else selectFlagged fs vs

/-- The `listOpen` value at each render: the mount render plus one render
per event. -/
def plRenderStates (es : List PLEvent) : List Bool :=
  plInit :: scanStates plInit es

/-- The arguments of the `onToggle` invocations produced by the effect at
ParticipantList.tsx lines 113-117 (`useEffect` with deps `[listOpen]`)
over an event sequence. -/
def plInvocations (es : List PLEvent) : List Bool :=
  selectFlagged (effectSchedule (plRenderStates es)) (plRenderStates es)

/-- The post-state of every event that actually changes `listOpen`,
in order: the transitions of the run. -/
def transitionValues (s : Bool) : List PLEvent → List Bool
  | [] => []
  | e :: es =>
    if plStep s e = s then transitionValues s es
    else plStep s e :: transitionValues (plStep s e) es

/-! ### Video tile sizing -/

/-- The `aspectRatio` prop: `{ width, height }`. Dimensions are rationals
(JS numbers used only through ratio arithmetic here). -/
structure Aspect where
  width : ℚ
  height : ℚ
deriving DecidableEq

/-- The `displayShape` prop. -/
inductive DisplayShape where
  | circle
  | rectangle
deriving DecidableEq

/-- `isSquare || isCircle` (VideoTile index.tsx lines 174-177):
square means rectangle shape with equal aspect width and height. -/
def isSquareOrCircle (shape : DisplayShape) (ar : Aspect) : Bool :=
  (decide (shape = DisplayShape.rectangle) && decide (ar.width = ar.height))
    || decide (shape = DisplayShape.circle)

/-- The pixel width computed by `Video.getVideoStyles` (index.tsx lines
118-120): `height` when square or circle, otherwise
`(aspectRatio.width / aspectRatio.height) * height`. -/
def videoWidth (isSqC : Bool) (ar : Aspect) (height : ℚ) : ℚ :=
  if isSqC then height else ar.width / ar.height * height

/-- The dependency triple of the height-measuring effect
(index.tsx line 184): `[stream, aspectRatio, displayShape]`. The stream
is identified by an opaque id. -/
structure VideoDeps where
  stream : Nat
  ratio : Aspect
  shape : DisplayShape
deriving DecidableEq

/-- A default dependency triple (only used as a `getD` fallback). -/
def videoDeps0 : VideoDeps :=
  ⟨0, ⟨16, 9⟩, DisplayShape.rectangle⟩

/-! ### Concrete sample inputs -/

/-- Sample peer with role "host". -/
def peerA : HMSPeer := ⟨"a", "Alice", some "host"⟩

/-- Sample peer with role "guest". -/
def peerB : HMSPeer := ⟨"b", "Bob", some "guest"⟩

/-- Sample peer with no role. -/
def peerC : HMSPeer := ⟨"c", "Cara", none⟩

/-- Sample peer whose role name is the literal string "undefined". -/
def peerU : HMSPeer := ⟨"u", "Uma", some "undefined"⟩

/-- Sample participant list (the spec's example scenario). -/
def samplePeers : List ParticipantEntry :=
  [⟨peerA, true⟩, ⟨peerB, false⟩, ⟨peerC, true⟩]

/-- Default ClassMap of the spec's example scenario. -/
def exampleDefault : ClassMap :=
  fun slot => if slot = "menuItem" then some "text-gray-100 group" else none

/-- Custom ClassMap of the spec's example scenario (empty). -/
def exampleCustom : ClassMap := fun _ => none

/-- Caller ClassMap of the spec's example scenario. -/
def exampleCaller : ClassMap :=
  fun slot => if slot = "menuItem" then some "my-class" else none

/-! ### Theorems -/

/-- C1: For every triple of ClassMaps (default, custom, caller) and every
slot name, the styler returns the caller value if defined, else the
custom value if defined, else the default value if defined, else the
empty string; it is a total function (never fails). -/
theorem c1_styler_resolution (dflt custom caller : ClassMap) (slot : String) :
    (∀ v, caller slot = some v →
      hmsUiClassParserGenerator dflt custom caller slot = v) ∧
    (caller slot = none → ∀ v, custom slot = some v →
      hmsUiClassParserGenerator dflt custom caller slot = v) ∧
    (caller slot = none → custom slot = none → ∀ v, dflt slot = some v →
      hmsUiClassParserGenerator dflt custom caller slot = v) ∧
    (caller slot = none → custom slot = none → dflt slot = none →
      hmsUiClassParserGenerator dflt custom caller slot = "") := by
  refine ⟨?_, ?_, ?_, ?_⟩ <;> intros <;> simp [hmsUiClassParserGenerator, *]

/-- Witness for C1 at the spec's example scenario: slot `menuItem`,
caller override "my-class" wins over the default. -/
theorem c1_styler_resolution_witness :
    exampleCaller "menuItem" = some "my-class" ∧
    hmsUiClassParserGenerator exampleDefault exampleCustom exampleCaller
      "menuItem" = "my-class" :=
  ⟨by decide,
   (c1_styler_resolution exampleDefault exampleCustom exampleCaller
     "menuItem").1 "my-class" (by decide)⟩

/-- C4: applying the toggle click twice returns the list to its original
open/closed state, and the initial state is closed. -/
theorem c4_toggle_involution :
    (∀ s : Bool, plStep (plStep s PLEvent.toggleClick) PLEvent.toggleClick = s) ∧
    plInit = false :=
  ⟨fun s => by cases s <;> rfl, rfl⟩

/-- C5: the save handler performs no SDK call, emits no toast and leaves
the dialog state unchanged unless a peer is selected, a non-empty target
role is chosen and the viewer's role grants changeRole; and when the
permission is absent the role select input is disabled. -/
theorem c5_save_guard (st : DialogState) (lr : Option HMSRole)
    (sdk : Except String Unit)
    (h : st.selectedPeer = none ∨ st.selectedRole = "" ∨
      changeRolePermitted lr = false) :
    handleSaveSettings st lr sdk = ⟨[], [], st⟩ ∧
    (changeRolePermitted lr = false → selectDisabled lr = true) := by
  constructor
  · rcases h with h | h | h
    · simp [handleSaveSettings, h]
    · cases hp : st.selectedPeer <;> simp [handleSaveSettings, hp, h]
    · rcases hp : st.selectedPeer with _ | peer
      · simp [handleSaveSettings, hp]
      · by_cases hr : st.selectedRole = "" <;>
          simp [handleSaveSettings, hp, hr, h]
  · intro hcr
    simp [selectDisabled, hcr]

/-- Witness for C5: no peer selected, so saving changes nothing even with
permission granted and an SDK ready to succeed. -/
theorem c5_save_guard_witness :
    handleSaveSettings ⟨none, "host", false⟩ (some ⟨"host", some ⟨true⟩⟩)
      (Except.ok ()) = ⟨[], [], ⟨none, "host", false⟩⟩ :=
  (c5_save_guard ⟨none, "host", false⟩ (some ⟨"host", some ⟨true⟩⟩)
    (Except.ok ()) (Or.inl rfl)).1

/-- C6: with the guard satisfied, saving with the peer's current role
issues no SDK call, no toast, and closes the dialog; a differing target
role issues exactly the changeRole call carrying (peer id, target role,
skip-confirmation flag), after which the dialog is closed as well. -/
theorem c6_role_change_call (st : DialogState) (lr : Option HMSRole)
    (sdk : Except String Unit) (peer : HMSPeer)
    (hp : st.selectedPeer = some peer) (hr : st.selectedRole ≠ "")
    (hperm : changeRolePermitted lr = true) :
    (peer.roleName = some st.selectedRole →
      handleSaveSettings st lr sdk =
        ⟨[], [], { st with selectedPeer := none, forceChange := false }⟩) ∧
    (peer.roleName ≠ some st.selectedRole →
      (handleSaveSettings st lr sdk).calls =
        [SDKCall.changeRole peer.id st.selectedRole st.forceChange] ∧
      (handleSaveSettings st lr sdk).state.selectedPeer = none) := by
  constructor
  · intro hsame
    simp [handleSaveSettings, hp, hr, hperm, hsame]
  · intro hdiff
    cases sdk <;> simp [handleSaveSettings, hp, hr, hperm, hdiff]

/-- Witness for C6: saving with the peer's current role ("host") makes no
call and closes the dialog. -/
theorem c6_role_change_call_witness :
    handleSaveSettings ⟨some ⟨"a", "Alice", some "host"⟩, "host", false⟩
      (some ⟨"host", some ⟨true⟩⟩) (Except.ok ()) =
      ⟨[], [], ⟨none, "host", false⟩⟩ :=
  (c6_role_change_call ⟨some ⟨"a", "Alice", some "host"⟩, "host", false⟩
    (some ⟨"host", some ⟨true⟩⟩) (Except.ok ()) ⟨"a", "Alice", some "host"⟩
    rfl (by decide) rfl).1 rfl

/-- C7: when the issued SDK call rejects with message m, the toast
side-channel receives exactly [m], exactly one call was issued (no
retry), and the dialog state is reset to closed; nothing else is
propagated (the outcome is a plain value). -/
theorem c7_rejection_toast (st : DialogState) (lr : Option HMSRole)
    (peer : HMSPeer) (m : String)
    (hp : st.selectedPeer = some peer) (hr : st.selectedRole ≠ "")
    (hperm : changeRolePermitted lr = true)
    (hdiff : peer.roleName ≠ some st.selectedRole) :
    (handleSaveSettings st lr (Except.error m)).toasts = [m] ∧
    (handleSaveSettings st lr (Except.error m)).calls.length = 1 ∧
    (handleSaveSettings st lr (Except.error m)).state =
      { st with selectedPeer := none, forceChange := false } := by
  simp [handleSaveSettings, hp, hr, hperm, hdiff]

/-- Witness for C7: moving the "host" peer to "guest" while the SDK
rejects with "denied". -/
theorem c7_rejection_toast_witness :
    (handleSaveSettings ⟨some ⟨"a", "Alice", some "host"⟩, "guest", true⟩
      (some ⟨"host", some ⟨true⟩⟩) (Except.error "denied")).toasts =
      ["denied"] ∧
    (handleSaveSettings ⟨some ⟨"a", "Alice", some "host"⟩, "guest", true⟩
      (some ⟨"host", some ⟨true⟩⟩) (Except.error "denied")).calls.length = 1 ∧
    (handleSaveSettings ⟨some ⟨"a", "Alice", some "host"⟩, "guest", true⟩
      (some ⟨"host", some ⟨true⟩⟩) (Except.error "denied")).state =
      ⟨none, "guest", false⟩ :=
  c7_rejection_toast ⟨some ⟨"a", "Alice", some "host"⟩, "guest", true⟩
    (some ⟨"host", some ⟨true⟩⟩) ⟨"a", "Alice", some "host"⟩ "denied"
    rfl (by decide) rfl (by decide)

/-- C10: the skip-confirmation checkbox is enabled exactly when a peer is
selected, a non-empty target role is chosen, and that role differs from
the selected peer's current role; hence it is disabled in every other
dialog state. -/
theorem c10_checkbox_guard (st : DialogState) :
    checkboxDisabled st = false ↔
      ∃ peer, st.selectedPeer = some peer ∧ st.selectedRole ≠ "" ∧
        peer.roleName ≠ some st.selectedRole := by
  cases hp : st.selectedPeer with
  | none => simp [checkboxDisabled, hp]
  | some peer => simp [checkboxDisabled, hp]

/-- Looking a key up after one `insertGroup` step: the group for the
inserted key gains the entry at its end; other groups are untouched. -/
theorem lookupGroup_insertGroup (k k0 : String) (p : ParticipantEntry)
    (gs : List (String × List ParticipantEntry)) :
    lookupGroup k (insertGroup k0 p gs) =
      if k0 = k then lookupGroup k gs ++ [p] else lookupGroup k gs := by
  induction gs with
  | nil =>
    by_cases h : k0 = k <;> simp [insertGroup, lookupGroup, h]
  | cons hd tl ih =>
    obtain ⟨k', g⟩ := hd
    by_cases h1 : k' = k0
    · subst h1
      by_cases h2 : k' = k <;> simp [insertGroup, lookupGroup, h2]
    · by_cases h2 : k' = k
      · have h3 : ¬k0 = k := fun hh => h1 (h2.trans hh.symm)
        have h4 : ¬k = k0 := fun hh => h3 hh.symm
        simp [insertGroup, lookupGroup, h1, h2, h3, h4]
      · simp [insertGroup, lookupGroup, h1, h2, ih]

/-- The keys after one `insertGroup` step: unchanged when the key is
already present, appended otherwise. -/
theorem keys_insertGroup (k0 : String) (p : ParticipantEntry)
    (gs : List (String × List ParticipantEntry)) :
    (insertGroup k0 p gs).map Prod.fst =
      if k0 ∈ gs.map Prod.fst then gs.map Prod.fst
      else gs.map Prod.fst ++ [k0] := by
  induction gs with
  | nil => simp [insertGroup]
  | cons hd tl ih =>
    obtain ⟨k', g⟩ := hd
    by_cases h1 : k' = k0
    · simp [insertGroup, h1]
    · have h2 : ¬k0 = k' := fun hh => h1 hh.symm
      by_cases h3 : k0 ∈ tl.map Prod.fst <;>
        simp [insertGroup, h1, h2, h3, ih]

/-- Key membership after one `insertGroup` step. -/
theorem mem_keys_insertGroup (k k0 : String) (p : ParticipantEntry)
    (gs : List (String × List ParticipantEntry)) :
    k ∈ (insertGroup k0 p gs).map Prod.fst ↔
      k ∈ gs.map Prod.fst ∨ k = k0 := by
  rw [keys_insertGroup]
  by_cases h3 : k0 ∈ gs.map Prod.fst
  · simp only [if_pos h3]
    constructor
    · exact Or.inl
    · rintro (h | rfl)
      · exact h
      · exact h3
  · simp [if_neg h3]

/-- `insertGroup` preserves key distinctness. -/
theorem nodup_keys_insertGroup (k0 : String) (p : ParticipantEntry)
    (gs : List (String × List ParticipantEntry))
    (h : (gs.map Prod.fst).Nodup) :
    ((insertGroup k0 p gs).map Prod.fst).Nodup := by
  rw [keys_insertGroup]
  by_cases h3 : k0 ∈ gs.map Prod.fst
  · simpa [if_pos h3] using h
  · rw [if_neg h3]
    exact h.append (List.nodup_singleton k0) (by simpa using h3)

/-- Each group accumulated by `groupByAux` is the prior group content
followed by the in-order filter of the remaining input. -/
theorem lookupGroup_groupByAux (k : String)
    (acc : List (String × List ParticipantEntry))
    (l : List ParticipantEntry) :
    lookupGroup k (groupByAux acc l) =
      lookupGroup k acc ++ l.filter (fun p => roleKey p = k) := by
  induction l generalizing acc with
  | nil => simp [groupByAux]
  | cons p ps ih =>
    rw [groupByAux, ih, lookupGroup_insertGroup]
    by_cases h : roleKey p = k <;>
      simp [List.filter_cons, h, List.append_assoc]

/-- Key membership in the accumulated grouping. -/
theorem mem_keys_groupByAux (k : String)
    (acc : List (String × List ParticipantEntry))
    (l : List ParticipantEntry) :
    k ∈ (groupByAux acc l).map Prod.fst ↔
      k ∈ acc.map Prod.fst ∨ ∃ p ∈ l, roleKey p = k := by
  induction l generalizing acc with
  | nil => simp [groupByAux]
  | cons p ps ih =>
    rw [groupByAux, ih, mem_keys_insertGroup]
    constructor
    · rintro ((h | h) | ⟨q, hq, hk⟩)
      · exact Or.inl h
      · exact Or.inr ⟨p, List.mem_cons_self p ps, h.symm⟩
      · exact Or.inr ⟨q, List.mem_cons_of_mem p hq, hk⟩
    · rintro (h | ⟨q, hq, hk⟩)
      · exact Or.inl (Or.inl h)
      · rcases List.mem_cons.1 hq with rfl | hq'
        · exact Or.inl (Or.inr hk.symm)
        · exact Or.inr ⟨q, hq', hk⟩

/-- `groupByAux` preserves key distinctness. -/
theorem nodup_keys_groupByAux
    (acc : List (String × List ParticipantEntry))
    (l : List ParticipantEntry)
    (h : (acc.map Prod.fst).Nodup) :
    ((groupByAux acc l).map Prod.fst).Nodup := by
  induction l generalizing acc with
  | nil => simpa [groupByAux] using h
  | cons p ps ih =>
    rw [groupByAux]
    exact ih _ (nodup_keys_insertGroup _ _ _ h)

/-- C2 (amended): provided no peer's role name is the literal string
"undefined", grouping by role gives: every group's content is exactly the
in-order sublist of the input with that role key (so relative order is
preserved); the group keys are distinct, with one key per role key
present; and a group whose header renders as "Unknown" exists exactly
when some peer has an undefined role name. (Without the proviso, a peer
whose role name is the string "undefined" is merged with the peers that
have no role name, see the counterexample.) -/
theorem c2_grouping (l : List ParticipantEntry)
    (hclash : ∀ p ∈ l, p.peer.roleName ≠ some "undefined") :
    (∀ k, lookupGroup k (rolesMap l) = l.filter (fun p => roleKey p = k)) ∧
    (groupKeys l).Nodup ∧
    (∀ k, k ∈ groupKeys l ↔ ∃ p ∈ l, roleKey p = k) ∧
    (("undefined" ∈ groupKeys l ↔ ∃ p ∈ l, p.peer.roleName = none) ∧
      renderLabel "undefined" = "Unknown" ∧
      ∀ r, r ≠ "undefined" → renderLabel r = r) := by
  refine ⟨?_, ?_, ?_, ?_, ?_, ?_⟩
  · intro k
    simp [rolesMap, lookupGroup_groupByAux, lookupGroup]
  · exact nodup_keys_groupByAux [] l (by simp)
  · intro k
    simpa [groupKeys, rolesMap] using mem_keys_groupByAux k [] l
  · constructor
    · intro hmem
      have hmem' := (mem_keys_groupByAux "undefined" [] l).1
        (by simpa [groupKeys, rolesMap] using hmem)
      obtain ⟨p, hpl, hpk⟩ := hmem'.resolve_left (by simp)
      refine ⟨p, hpl, ?_⟩
      rcases hrn : p.peer.roleName with _ | r
      · rfl
      · have hr : r = "undefined" := by simpa [roleKey, hrn] using hpk
        exact absurd (hrn.trans (by rw [hr])) (hclash p hpl)
    · rintro ⟨p, hpl, hpn⟩
      have hk : roleKey p = "undefined" := by simp [roleKey, hpn]
      simpa [groupKeys, rolesMap] using
        (mem_keys_groupByAux "undefined" [] l).2 (Or.inr ⟨p, hpl, hk⟩)
  · simp [renderLabel]
  · intro r hr
    simp [renderLabel, hr]

/-- Witness for C2 at the spec's example participant list
(host, guest, and one role-less peer). -/
theorem c2_grouping_witness :
    (∀ p ∈ samplePeers, p.peer.roleName ≠ some "undefined") ∧
    ((∀ k, lookupGroup k (rolesMap samplePeers) =
        samplePeers.filter (fun p => roleKey p = k)) ∧
      (groupKeys samplePeers).Nodup ∧
      (∀ k, k ∈ groupKeys samplePeers ↔ ∃ p ∈ samplePeers, roleKey p = k) ∧
      (("undefined" ∈ groupKeys samplePeers ↔
          ∃ p ∈ samplePeers, p.peer.roleName = none) ∧
        renderLabel "undefined" = "Unknown" ∧
        ∀ r, r ≠ "undefined" → renderLabel r = r)) :=
  ⟨by decide, c2_grouping samplePeers (by decide)⟩

/-- C2 counterexample: a single peer whose role name is the literal
string "undefined" yields a group whose header renders "Unknown" even
though no peer has an undefined role name, refuting the claim's "when and
only when" as stated. -/
theorem c2_grouping_counterexample :
    "undefined" ∈ groupKeys [⟨peerU, true⟩] ∧
    (∀ p ∈ ([⟨peerU, true⟩] : List ParticipantEntry),
      p.peer.roleName ≠ none) ∧
    renderLabel "undefined" = "Unknown" := by
  refine ⟨?_, ?_, ?_⟩ <;> decide

/-- The effect-selected values over the post-event render states are
exactly the post-states of the events that change `listOpen`. -/
theorem selectFlagged_depChanges (s : Bool) (es : List PLEvent) :
    selectFlagged (depChanges s (scanStates s es)) (scanStates s es) =
      transitionValues s es := by
  induction es generalizing s with
  | nil => rfl
  | cons e es ih =>
    by_cases h : plStep s e = s
    · simp [scanStates, depChanges, selectFlagged, transitionValues, h, ih]
    · simp [scanStates, depChanges, selectFlagged, transitionValues, h, ih]

/-- The `onToggle` invocation list is the mount invocation with `false`
followed by one invocation per actual transition, carrying the new
state. -/
theorem plInvocations_eq (es : List PLEvent) :
    plInvocations es = false :: transitionValues false es := by
  simp [plInvocations, plRenderStates, plInit, effectSchedule,
    selectFlagged, selectFlagged_depChanges]

/-- Appending one event appends its transition output, if any. -/
theorem transitionValues_append_single (s : Bool) (es : List PLEvent)
    (e : PLEvent) :
    transitionValues s (es ++ [e]) =
      transitionValues s es ++
        (if plStep (plFinal s es) e = plFinal s es then []
         else [plStep (plFinal s es) e]) := by
  induction es generalizing s with
  | nil =>
    by_cases h : plStep s e = s <;>
      simp [transitionValues, plFinal, h]
  | cons f es ih =>
    by_cases h : plStep s f = s <;>
      simp [transitionValues, plFinal, h, ih]

/-- C3 (amended): besides one initial invocation with `false` fired by
the effect after the mount render, the `onToggle` callback is invoked
exactly once per open/closed transition, with the new boolean, and never
on a no-op event; in particular a click-outside while the list is already
closed adds no invocation. (The claim as stated — no invocation without a
transition — fails at mount, see the counterexample.) -/
theorem c3_ontoggle_per_transition (es : List PLEvent) :
    plInvocations es = false :: transitionValues false es ∧
    (plFinal false es = false →
      plInvocations (es ++ [PLEvent.clickAway]) = plInvocations es) := by
  refine ⟨plInvocations_eq es, fun hfin => ?_⟩
  rw [plInvocations_eq, plInvocations_eq, transitionValues_append_single]
  simp [hfin, plStep]

/-- Witness for C3: after opening and closing the list, a click-outside
adds no further invocation. -/
theorem c3_ontoggle_per_transition_witness :
    plFinal false [PLEvent.toggleClick, PLEvent.toggleClick] = false ∧
    plInvocations
        ([PLEvent.toggleClick, PLEvent.toggleClick] ++ [PLEvent.clickAway]) =
      plInvocations [PLEvent.toggleClick, PLEvent.toggleClick] :=
  ⟨by decide,
   (c3_ontoggle_per_transition [PLEvent.toggleClick, PLEvent.toggleClick]).2
     (by decide)⟩

/-- C3 counterexample: with no open/close events at all, the effect at
mount still invokes the callback once (with `false`), an invocation
without any state transition. -/
theorem c3_mount_invocation_counterexample :
    plInvocations [] = [false] ∧ transitionValues false [] = [] :=
  ⟨rfl, rfl⟩

/-- C8 counterexample: closing the dialog keeps the pending target role
name: from (Alice selected, pending role "guest", skip flag set), the
close handler leaves the pending role "guest" instead of discarding
it. -/
theorem c8_close_counterexample :
    (handleRoleChangeClose
        ⟨some ⟨"a", "Alice", some "host"⟩, "guest", true⟩).selectedRole =
      "guest" ∧
    "guest" ≠ "" :=
  ⟨rfl, by decide⟩

/-- C8 (amended): on every close path (explicit close / click-outside,
which share `handleRoleChangeClose`, and a completed save) the selected
peer and the skip-confirmation flag are reset, but the pending target
role name is retained; it is only overwritten when the dialog next opens
for a peer. -/
theorem c8_close_resets (st : DialogState) (lr : Option HMSRole)
    (sdk : Except String Unit) (peer p : HMSPeer)
    (hp : st.selectedPeer = some peer) (hr : st.selectedRole ≠ "")
    (hperm : changeRolePermitted lr = true) :
    ((handleRoleChangeClose st).selectedPeer = none ∧
      (handleRoleChangeClose st).forceChange = false ∧
      (handleRoleChangeClose st).selectedRole = st.selectedRole) ∧
    ((handleSaveSettings st lr sdk).state.selectedPeer = none ∧
      (handleSaveSettings st lr sdk).state.forceChange = false ∧
      (handleSaveSettings st lr sdk).state.selectedRole = st.selectedRole) ∧
    (openUserSettings p st).selectedRole = p.roleName.getD "" := by
  refine ⟨⟨rfl, rfl, rfl⟩, ?_, rfl⟩
  by_cases hsame : peer.roleName = some st.selectedRole
  · simp [handleSaveSettings, hp, hr, hperm, hsame]
  · cases sdk <;> simp [handleSaveSettings, hp, hr, hperm, hsame]

/-- Witness for C8: closing from (Alice selected, pending "guest", flag
set) resets peer and flag but keeps "guest"; a save from the same state
does too; opening for Bob overwrites the pending role with "guest". -/
theorem c8_close_resets_witness :
    ((handleRoleChangeClose
        ⟨some peerA, "guest", true⟩).selectedPeer = none ∧
      (handleRoleChangeClose
        ⟨some peerA, "guest", true⟩).forceChange = false ∧
      (handleRoleChangeClose
        ⟨some peerA, "guest", true⟩).selectedRole =
        (⟨some peerA, "guest", true⟩ : DialogState).selectedRole) ∧
    ((handleSaveSettings ⟨some peerA, "guest", true⟩
        (some ⟨"host", some ⟨true⟩⟩) (Except.ok ())).state.selectedPeer =
        none ∧
      (handleSaveSettings ⟨some peerA, "guest", true⟩
        (some ⟨"host", some ⟨true⟩⟩) (Except.ok ())).state.forceChange =
        false ∧
      (handleSaveSettings ⟨some peerA, "guest", true⟩
        (some ⟨"host", some ⟨true⟩⟩) (Except.ok ())).state.selectedRole =
        (⟨some peerA, "guest", true⟩ : DialogState).selectedRole) ∧
    (openUserSettings peerB ⟨some peerA, "guest", true⟩).selectedRole =
      peerB.roleName.getD "" :=
  c8_close_resets ⟨some peerA, "guest", true⟩ (some ⟨"host", some ⟨true⟩⟩)
    (Except.ok ()) peerA peerB rfl (by decide) rfl

/-- Indexing the dependency-change flags: the flag at position i is set
exactly when the dependency value at render i+1 differs from the one at
render i. -/
theorem depChanges_getD {δ : Type} [DecidableEq δ] (d0 : δ) (prev : δ)
    (ds : List δ) (i : Nat) (hi : i < ds.length) :
    (depChanges prev ds).getD i false =
      !(decide (ds.getD i d0 = (prev :: ds).getD i d0)) := by
  induction ds generalizing prev i with
  | nil => simp at hi
  | cons d ds ih =>
    cases i with
    | zero => simp [depChanges]
    | succ i =>
      have hi' : i < ds.length := by simpa using hi
      have h2 := ih d i hi'
      simp only [depChanges, List.getD_cons_succ]
      simpa using h2

/-- C9: the tile's computed pixel width equals the measured height when
the shape is circle or a square rectangle, and (w / ah) * height for a
non-square rectangle; and the height-measuring effect runs after the
mount render and after exactly those renders whose (stream, aspect ratio,
shape) dependency triple changed. -/
theorem c9_video_sizing :
    (∀ (ar : Aspect) (h : ℚ),
      videoWidth (isSquareOrCircle DisplayShape.circle ar) ar h = h) ∧
    (∀ (ar : Aspect) (h : ℚ), ar.width = ar.height →
      videoWidth (isSquareOrCircle DisplayShape.rectangle ar) ar h = h) ∧
    (∀ (ar : Aspect) (h : ℚ), ar.width ≠ ar.height →
      videoWidth (isSquareOrCircle DisplayShape.rectangle ar) ar h =
        ar.width / ar.height * h) ∧
    (∀ (d : VideoDeps) (ds : List VideoDeps),
      (effectSchedule (d :: ds)).getD 0 false = true) ∧
    (∀ (d : VideoDeps) (ds : List VideoDeps) (i : Nat), i < ds.length →
      (effectSchedule (d :: ds)).getD (i + 1) false =
        !(decide (ds.getD i videoDeps0 = (d :: ds).getD i videoDeps0))) := by
  refine ⟨?_, ?_, ?_, ?_, ?_⟩
  · intro ar h
    simp [videoWidth, isSquareOrCircle]
  · intro ar h hsq
    simp [videoWidth, isSquareOrCircle, hsq]
  · intro ar h hne
    simp [videoWidth, isSquareOrCircle, hne]
  · intro d ds
    rfl
  · intro d ds i hi
    simpa [effectSchedule, List.getD_cons_succ] using
      depChanges_getD videoDeps0 d ds i hi

/-- Witness for C9: a circle tile of height 180, a square 4:4 tile, a
16:9 tile of width 320, and the effect schedule over one and two
renders. -/
theorem c9_video_sizing_witness :
    videoWidth (isSquareOrCircle DisplayShape.circle ⟨16, 9⟩) ⟨16, 9⟩ 180 =
      180 ∧
    ((4 : ℚ) = 4 ∧
      videoWidth (isSquareOrCircle DisplayShape.rectangle ⟨4, 4⟩) ⟨4, 4⟩ 180 =
        180) ∧
    ((16 : ℚ) ≠ 9 ∧
      videoWidth (isSquareOrCircle DisplayShape.rectangle ⟨16, 9⟩) ⟨16, 9⟩
          180 = 16 / 9 * 180) ∧
    (effectSchedule [videoDeps0]).getD 0 false = true ∧
    (0 < ([videoDeps0] : List VideoDeps).length ∧
      (effectSchedule [videoDeps0, videoDeps0]).getD 1 false =
        !(decide (([videoDeps0] : List VideoDeps).getD 0 videoDeps0 =
          ([videoDeps0, videoDeps0] : List VideoDeps).getD 0 videoDeps0))) :=
  ⟨c9_video_sizing.1 ⟨16, 9⟩ 180,
   ⟨rfl, c9_video_sizing.2.1 ⟨4, 4⟩ 180 rfl⟩,
   ⟨by norm_num, c9_video_sizing.2.2.1 ⟨16, 9⟩ 180 (by norm_num)⟩,
   c9_video_sizing.2.2.2.1 videoDeps0 [],
   ⟨by decide,
    c9_video_sizing.2.2.2.2 videoDeps0 [videoDeps0] 0 (by decide)⟩⟩

end HmsVideoReact
